import Mathlib

/-!
Verification of `inventory_system.py`: an in-memory keyed-quantity ledger
with JSON-file persistence.  The Python module-level dict `stock_data` is
embedded as an insertion-ordered association list; dict operations follow
Python semantics (lookup of the first matching key, in-place update of an
existing key, append of a new key at the end).  The dynamically typed
arguments of the API are embedded as a `PyVal` type so that the validation
branches (`isinstance` checks) can be stated; all operations are total
functions, matching the code's policy of never raising to the caller.
-/

/-- A Python value as passed to the dynamically typed API: a string, an
integer, a boolean (which Python treats as an instance of `int`), or any
other value. -/
inductive PyVal where
  | vstr (s : String)
  | vint (n : Int)
  | vbool (b : Bool)
  | vother
deriving DecidableEq

/-- `isinstance(x, str)`. -/
def PyVal.isStr : PyVal → Bool
  | .vstr _ => true
  | _ => false

/-- `isinstance(x, int)`; Python booleans are instances of `int`. -/
def PyVal.isIntLike : PyVal → Bool
  | .vint _ => true
  | .vbool _ => true
  | _ => false

/-- The integer carried by an int-like Python value (`True` is 1, `False` 0). -/
def PyVal.toIntVal : PyVal → Int
  | .vint n => n
  | .vbool b => if b then 1 else 0
  | _ => 0

/-- The ledger `stock_data`: insertion-ordered mapping from item name to
quantity. -/
abbrev Ledger := List (String × Int)

/-- Python `d.get(k, dflt)`: the stored value, or `dflt` when absent. -/
def dictGet (d : Ledger) (k : String) (dflt : Int) : Int :=
  match d.find? (fun p => p.1 == k) with
  | some p => p.2
  | none => dflt

/-- Python `d[k] = v`: replace in place when `k` is present, else append. -/
def dictSet (d : Ledger) (k : String) (v : Int) : Ledger :=
  if d.any (fun p => p.1 == k) then
    d.map (fun p => if p.1 == k then (k, v) else p)
  else
    d ++ [(k, v)]

/-- Python `del d[k]`. -/
def dictDel (d : Ledger) (k : String) : Ledger :=
  d.filter (fun p => p.1 != k)

/-- `add_item(item, qty)`: requires `item` a non-empty string and `qty` an
`int`; on validation failure logs and leaves the ledger unchanged, otherwise
stores `previous + qty` where `previous = stock_data.get(item, 0)`. -/
def add_item (item qty : PyVal) (d : Ledger) : Ledger :=
  match item with
  | .vstr s =>
    if s = "" then d
    else if qty.isIntLike then dictSet d s (dictGet d s 0 + qty.toIntVal)
    else d
  | _ => d

/-- `remove_item(item, qty)`: same validation as `add_item`; a missing item
is a logged no-op; otherwise `new = current - qty` is stored, except that
the entry is deleted when `new ≤ 0`. -/
def remove_item (item qty : PyVal) (d : Ledger) : Ledger :=
  match item with
  | .vstr s =>
    if s = "" then d
    else if qty.isIntLike then
      match d.find? (fun p => p.1 == s) with
      | none => d
      | some p =>
        if p.2 - qty.toIntVal ≤ 0 then dictDel d s
        else dictSet d s (p.2 - qty.toIntVal)
    else d
  | _ => d

/-- `get_qty(item)`: the stored quantity, or 0 when the item is absent or
`item` fails validation. -/
def get_qty (item : PyVal) (d : Ledger) : Int :=
  match item with
  | .vstr s => if s = "" then 0 else dictGet d s 0
  | _ => 0

/-- A JSON value as decoded by `json.load` (integer numbers suffice for this
program's persisted format). -/
inductive JSON where
  | jnull
  | jbool (b : Bool)
  | jnum (n : Int)
  | jstr (s : String)
  | jarr (xs : List JSON)
  | jobj (fields : List (String × JSON))

/-- Strip leading and trailing whitespace, as Python `int(str)` does. -/
def stripWs (cs : List Char) : List Char :=
  ((cs.dropWhile Char.isWhitespace).reverse.dropWhile Char.isWhitespace).reverse

/-- No two consecutive underscores in the character run. -/
def noDoubleUnderscore : List Char → Bool
  | [] => true
  | [_] => true
  | a :: b :: rest => !(a == '_' && b == '_') && noDoubleUnderscore (b :: rest)

/-- The digit run accepted by Python `int`: nonempty, first and last
characters are digits, only digits and underscores in between, and no two
consecutive underscores. -/
def validDigitRun (cs : List Char) : Bool :=
  match cs with
  | [] => false
  | c :: _ =>
    c.isDigit &&
    (match cs.getLast? with
     | some l => l.isDigit
     | none => false) &&
    cs.all (fun ch => ch.isDigit || ch == '_') &&
    noDoubleUnderscore cs

/-- The base-10 value of a digit run, ignoring underscores. -/
def digitsVal (cs : List Char) : Nat :=
  cs.foldl (fun acc c => if c == '_' then acc else acc * 10 + (c.toNat - 48)) 0

/-- Python `int(s)` on a string: strip whitespace, optional sign, then a
digit run; `none` models the `ValueError` the code catches. -/
def pyIntOfStr (s : String) : Option Int :=
  match stripWs s.toList with
  | '-' :: rest => if validDigitRun rest then some (-(digitsVal rest : Int)) else none
  | '+' :: rest => if validDigitRun rest then some ((digitsVal rest : Int)) else none
  | cs => if validDigitRun cs then some ((digitsVal cs : Int)) else none

/-- Python `int(v)` coercion applied to a JSON-decoded value; `none` models
the `TypeError`/`ValueError` branches caught by `load_data`. -/
def pyInt : JSON → Option Int
  | .jnum n => some n
  | .jbool b => some (if b then 1 else 0)
  | .jstr s => pyIntOfStr s
  | _ => none

/-- The content found at a path by `load_data`: the file may be missing,
unreadable or invalid JSON (both caught and treated alike), or decoded. -/
inductive FileContent where
  | missing
  | malformed
  | parsed (j : JSON)

/-- The per-key loop of `load_data`: each value is coerced with `int`;
keys whose values cannot be coerced are skipped with a warning. -/
def loadFields : List (String × JSON) → Ledger → Ledger
  | [], acc => acc
  | (k, v) :: rest, acc =>
    match pyInt v with
    | some n => loadFields rest (dictSet acc k n)
    | none => loadFields rest acc

/-- `load_data(file)`: an invalid `file` argument is a logged no-op; a
missing file, malformed JSON, or a non-object top level yields an empty
ledger; otherwise the ledger is rebuilt from the object's entries. -/
def load_data (file : PyVal) (content : FileContent) (prev : Ledger) : Ledger :=
  match file with
  | .vstr s =>
    if s = "" then prev
    else
      match content with
      | .missing => []
      | .malformed => []
      | .parsed (.jobj fields) => loadFields fields []
      | .parsed _ => []
  | _ => prev

/-- `save_data(file)`: the JSON object `json.dump` writes for the ledger. -/
def save_data (d : Ledger) : JSON :=
  .jobj (d.map (fun p => (p.1, JSON.jnum p.2)))

/-- `check_low_items(threshold)`: the items with quantity strictly below
`threshold`, in ledger iteration order; a non-`int` threshold yields `[]`. -/
def check_low_items (threshold : PyVal) (d : Ledger) : List String :=
  if threshold.isIntLike then
    (d.filter (fun p => p.2 < threshold.toIntVal)).map Prod.fst
  else []

/-! ### Lemmas about the embedded dict operations -/

lemma dictSet_cons_ne {p : String × Int} {k : String} (rest : Ledger) (v : Int)
    (h : p.1 ≠ k) : dictSet (p :: rest) k v = p :: dictSet rest k v := by
  by_cases ha : rest.any (fun q => q.1 == k)
  · simp [dictSet, h, ha]
  · simp [dictSet, h, ha]

lemma dictGet_cons_ne {p : String × Int} {k : String} (rest : Ledger) (x : Int)
    (h : p.1 ≠ k) : dictGet (p :: rest) k x = dictGet rest k x := by
  simp [dictGet, List.find?_cons, h]

lemma dictGet_set_self (d : Ledger) (k : String) (v x : Int) :
    dictGet (dictSet d k v) k x = v := by
  induction d with
  | nil => simp [dictSet, dictGet]
  | cons p rest ih =>
    by_cases h : p.1 = k
    · simp [dictSet, dictGet, h, List.any_cons, List.find?_cons]
    · rw [dictSet_cons_ne rest v h, dictGet_cons_ne _ x h]
      exact ih

lemma mem_dictSet {q : String × Int} {d : Ledger} {k : String} {v : Int}
    (h : q ∈ dictSet d k v) : q = (k, v) ∨ q ∈ d := by
  unfold dictSet at h
  split at h
  · obtain ⟨r, hr, heq⟩ := List.mem_map.mp h
    by_cases hk : r.1 = k
    · simp only [hk, beq_self_eq_true, if_true] at heq
      exact Or.inl heq.symm
    · simp only [beq_iff_eq, hk, if_false] at heq
      exact Or.inr (heq ▸ hr)
  · rcases List.mem_append.mp h with h1 | h1
    · exact Or.inr h1
    · exact Or.inl (List.mem_singleton.mp h1)

lemma dictGet_del (d : Ledger) (k : String) (x : Int) :
    dictGet (dictDel d k) k x = x := by
  unfold dictGet dictDel
  have hn : (d.filter (fun p => p.1 != k)).find? (fun p => p.1 == k) = none := by
    rw [List.find?_eq_none]
    intro p hp
    have hpk := List.of_mem_filter hp
    simp only [bne_iff_ne, ne_eq] at hpk
    simp [hpk]
  rw [hn]

lemma dictSet_of_forall_ne {d : Ledger} {k : String} (v : Int)
    (h : ∀ q ∈ d, q.1 ≠ k) : dictSet d k v = d ++ [(k, v)] := by
  unfold dictSet
  have ha : d.any (fun p => p.1 == k) = false := by
    simp only [List.any_eq_false]
    intro p hp
    simp [h p hp]
  simp [ha]

lemma mem_add_item {p : String × Int} {item qty : PyVal} {d : Ledger}
    (hp : p ∈ add_item item qty d) :
    p ∈ d ∨ ∃ s, item = .vstr s ∧ s ≠ "" ∧ p.1 = s := by
  cases item with
  | vstr s =>
    by_cases hs : s = ""
    · subst hs
      simp only [add_item, if_true] at hp
      exact Or.inl hp
    · by_cases hq : qty.isIntLike
      · simp only [add_item, hs, if_false, hq, if_true] at hp
        rcases mem_dictSet hp with h1 | h1
        · exact Or.inr ⟨s, rfl, hs, by rw [h1]⟩
        · exact Or.inl h1
      · simp only [add_item, hs, if_false, hq, if_false] at hp
        exact Or.inl hp
  | vint n => exact Or.inl hp
  | vbool b => exact Or.inl hp
  | vother => exact Or.inl hp

lemma mem_remove_item {p : String × Int} {item qty : PyVal} {d : Ledger}
    (hp : p ∈ remove_item item qty d) :
    p ∈ d ∨ ∃ s r, item = .vstr s ∧ s ≠ "" ∧
      d.find? (fun q => q.1 == s) = some r ∧
      p = (s, r.2 - qty.toIntVal) ∧ 0 < r.2 - qty.toIntVal := by
  cases item with
  | vstr s =>
    by_cases hs : s = ""
    · subst hs
      simp only [remove_item, if_true] at hp
      exact Or.inl hp
    · by_cases hq : qty.isIntLike
      · simp only [remove_item, hs, if_false, hq, if_true] at hp
        cases hfind : d.find? (fun q => q.1 == s) with
        | none =>
          rw [hfind] at hp
          exact Or.inl hp
        | some r =>
          rw [hfind] at hp
          by_cases hle : r.2 - qty.toIntVal ≤ 0
          · simp only [hle, if_true] at hp
            exact Or.inl (List.mem_of_mem_filter hp)
          · simp only [hle, if_false] at hp
            rcases mem_dictSet hp with h1 | h1
            · exact Or.inr ⟨s, r, rfl, hs, hfind, h1, by omega⟩
            · exact Or.inl h1
      · simp only [remove_item, hs, if_false, hq, if_false] at hp
        exact Or.inl hp
  | vint n => exact Or.inl hp
  | vbool b => exact Or.inl hp
  | vother => exact Or.inl hp

/-! ### Claim theorems -/

/-- C2: for every non-empty string `x` and integer `n`, `add(x, n)` followed
by `get_quantity(x)` returns the quantity stored for `x` before the add
(0 if `x` was absent) plus `n`. -/
theorem c2_add_then_get (s : String) (n : Int) (d : Ledger) (hs : s ≠ "") :
    get_qty (.vstr s) (add_item (.vstr s) (.vint n) d) = get_qty (.vstr s) d + n := by
  simp [add_item, get_qty, hs, PyVal.isIntLike, PyVal.toIntVal, dictGet_set_self]

/-- Witness for C2 at `x = "x"`, `n = 3`, ledger `{"x": 4}`. -/
theorem c2_add_then_get_witness :
    get_qty (.vstr "x") (add_item (.vstr "x") (.vint 3) [("x", 4)]) =
      get_qty (.vstr "x") [("x", 4)] + 3 :=
  c2_add_then_get "x" 3 [("x", 4)] (by decide)

/-- C4: when `x` is present with current quantity `c` and `qty ≥ c`,
`remove(x, qty)` deletes the entry for `x`, and a subsequent
`get_quantity(x)` returns 0. -/
theorem c4_remove_at_least_current_deletes (s : String) (c qty : Int) (d : Ledger)
    (hs : s ≠ "") (hfind : d.find? (fun p => p.1 == s) = some (s, c)) (hq : c ≤ qty) :
    remove_item (.vstr s) (.vint qty) d = dictDel d s ∧
      get_qty (.vstr s) (remove_item (.vstr s) (.vint qty) d) = 0 := by
  have hle : c - qty ≤ 0 := by omega
  have h1 : remove_item (.vstr s) (.vint qty) d = dictDel d s := by
    simp [remove_item, hs, PyVal.isIntLike, hfind, PyVal.toIntVal, hle]
  refine ⟨h1, ?_⟩
  rw [h1]
  simp [get_qty, hs, dictGet_del]

/-- Witness for C4 at `x = "x"`, `c = 4`, `qty = 5`, ledger `{"x": 4}`. -/
theorem c4_remove_deletes_witness :
    remove_item (.vstr "x") (.vint 5) [("x", 4)] = dictDel [("x", 4)] "x" ∧
      get_qty (.vstr "x") (remove_item (.vstr "x") (.vint 5) [("x", 4)]) = 0 :=
  c4_remove_at_least_current_deletes "x" 4 5 [("x", 4)] (by decide) (by decide) (by decide)

/-- C9: loading from a path that names no existing file leaves the ledger
empty; the embedded `load_data` is a total function, matching the code's
policy of raising nothing to the caller. -/
theorem c9_load_missing_empty (path : String) (prev : Ledger) (hp : path ≠ "") :
    load_data (.vstr path) .missing prev = [] := by
  simp [load_data, hp]

/-- Witness for C9 at path `"nosuch.json"` with a nonempty prior ledger. -/
theorem c9_load_missing_empty_witness :
    load_data (.vstr "nosuch.json") .missing [("a", 1)] = [] :=
  c9_load_missing_empty "nosuch.json" [("a", 1)] (by decide)

/-- C10: removing a negative quantity from a present item does not delete it
when `c - qty > 0`; it stores `c - qty`, which is strictly greater than the
current quantity `c`, so negative removal increases stored stock. -/
theorem c10_remove_negative_increases (s : String) (c qty : Int) (d : Ledger)
    (hs : s ≠ "") (hfind : d.find? (fun p => p.1 == s) = some (s, c))
    (hneg : qty < 0) (hpos : 0 < c - qty) :
    remove_item (.vstr s) (.vint qty) d = dictSet d s (c - qty) ∧
      get_qty (.vstr s) (remove_item (.vstr s) (.vint qty) d) = c - qty ∧
      c < c - qty := by
  have hnle : ¬ (c - qty ≤ 0) := by omega
  have h1 : remove_item (.vstr s) (.vint qty) d = dictSet d s (c - qty) := by
    simp [remove_item, hs, PyVal.isIntLike, hfind, PyVal.toIntVal, hnle]
  refine ⟨h1, ?_, by omega⟩
  rw [h1]
  simp [get_qty, hs, dictGet_set_self]

/-- Witness for C10 at `x = "x"`, `c = 2`, `qty = -3`, ledger `{"x": 2}`. -/
theorem c10_remove_negative_increases_witness :
    remove_item (.vstr "x") (.vint (-3)) [("x", 2)] = dictSet [("x", 2)] "x" 5 ∧
      get_qty (.vstr "x") (remove_item (.vstr "x") (.vint (-3)) [("x", 2)]) = 5 ∧
      (2 : Int) < 5 :=
  c10_remove_negative_increases "x" 2 (-3) [("x", 2)] (by decide) (by decide)
    (by decide) (by decide)

/-- C6: `add` and `remove` called with a non-string item, an empty-string
item, or a non-integer quantity leave the ledger exactly unchanged (the
embedded operations are total, so nothing is raised to the caller). -/
theorem c6_invalid_args_noop (item qty : PyVal) (d : Ledger)
    (h : item.isStr = false ∨ item = .vstr "" ∨ qty.isIntLike = false) :
    add_item item qty d = d ∧ remove_item item qty d = d := by
  cases item with
  | vstr s =>
    rcases h with h | h | h
    · simp [PyVal.isStr] at h
    · have hs : s = "" := by
        injection h
      subst hs
      exact ⟨by simp [add_item], by simp [remove_item]⟩
    · by_cases hs : s = ""
      · subst hs
        exact ⟨by simp [add_item], by simp [remove_item]⟩
      · exact ⟨by simp [add_item, hs, h], by simp [remove_item, hs, h]⟩
  | vint n => exact ⟨rfl, rfl⟩
  | vbool b => exact ⟨rfl, rfl⟩
  | vother => exact ⟨rfl, rfl⟩

/-- Witness for C6: a non-string item with a valid quantity. -/
theorem c6_invalid_args_noop_witness :
    add_item .vother (.vint 1) [("a", 2)] = [("a", 2)] ∧
      remove_item .vother (.vint 1) [("a", 2)] = [("a", 2)] :=
  c6_invalid_args_noop .vother (.vint 1) [("a", 2)] (Or.inl (by decide))

/-- C1 counterexample: the no-nonpositive-quantity invariant fails for `add`
and `load`: `add("x", 0)` on an empty ledger stores the entry `("x", 0)`,
and loading the JSON object `{"a": 0}` stores `("a", 0)`; both leave an
entry whose quantity is ≤ 0 after the operation completes. -/
theorem c1_nonpositive_after_add_and_load :
    (("x", (0 : Int)) ∈ add_item (.vstr "x") (.vint 0) []) ∧ ((0 : Int) ≤ 0) ∧
      (("a", (0 : Int)) ∈
        load_data (.vstr "inventory.json") (.parsed (.jobj [("a", .jnum 0)])) []) := by
  refine ⟨?_, le_refl 0, ?_⟩
  · simp [add_item, PyVal.isIntLike, PyVal.toIntVal, dictGet, dictSet]
  · simp [load_data, loadFields, pyInt, dictSet]

/-- C1 amended: only `remove` maintains the invariant — a removal that would
leave a quantity ≤ 0 deletes the entry, so if every entry is strictly
positive before a `remove`, every entry is strictly positive after it;
`add` and `load` can store quantities ≤ 0. -/
theorem c1_remove_preserves_positive (item qty : PyVal) (d : Ledger)
    (h : ∀ p ∈ d, 0 < p.2) : ∀ p ∈ remove_item item qty d, 0 < p.2 := by
  intro p hp
  rcases mem_remove_item hp with hd | ⟨s, r, -, -, -, hpeq, hpos⟩
  · exact h p hd
  · rw [hpeq]
    exact hpos

/-- Witness for C1 amended: removing 1 of `"x"` from `{"x": 3}` leaves the
entry `("x", 2)`, whose quantity is strictly positive. -/
theorem c1_remove_preserves_positive_witness :
    (0 : Int) < (("x", (2 : Int)) : String × Int).2 :=
  c1_remove_preserves_positive (.vstr "x") (.vint 1) [("x", 3)] (by decide)
    ("x", 2) (by decide)

/-- C5 counterexample: `load` introduces an empty-string key when the JSON
object in the file contains one — loading `{"": 5}` yields the ledger with
the single entry `("", 5)`. -/
theorem c5_empty_key_after_load :
    load_data (.vstr "inventory.json") (.parsed (.jobj [("", .jnum 5)])) [] =
      [("", 5)] := by
  simp [load_data, loadFields, pyInt, dictSet]

/-- C5 amended: every stored value is an integer (the ledger's value type),
and `add` and `remove` never introduce an empty-string key; but `load` can
introduce one taken from the JSON file. -/
theorem c5_add_remove_keep_keys_nonempty (item qty : PyVal) (d : Ledger)
    (h : ∀ p ∈ d, p.1 ≠ "") :
    (∀ p ∈ add_item item qty d, p.1 ≠ "") ∧
      (∀ p ∈ remove_item item qty d, p.1 ≠ "") := by
  constructor
  · intro p hp
    rcases mem_add_item hp with hd | ⟨s, -, hs, hps⟩
    · exact h p hd
    · rw [hps]
      exact hs
  · intro p hp
    rcases mem_remove_item hp with hd | ⟨s, r, -, hs, -, hpeq, -⟩
    · exact h p hd
    · rw [hpeq]
      exact hs

/-- Witness for C5 amended: after `add("x", 1)` on the empty ledger the
stored entry's key `"x"` is nonempty. -/
theorem c5_add_remove_keep_keys_nonempty_witness :
    (("x", (1 : Int)) : String × Int).1 ≠ "" :=
  (c5_add_remove_keep_keys_nonempty (.vstr "x") (.vint 1) [] (by simp)).1
    ("x", 1) (by decide)

/-- C7: loading a file containing `{"a": "notanumber", "b": 5}` skips the
key whose value cannot be coerced to an integer (with a warning) and keeps
the others, replacing the previous ledger with `{"b": 5}`. -/
theorem c7_load_skips_uncoercible :
    load_data (.vstr "inventory.json")
        (.parsed (.jobj [("a", .jstr "notanumber"), ("b", .jnum 5)]))
        [("old", 1)] = [("b", 5)] := by
  decide

/-- C8: for every ledger and integer threshold `t`, `list_below(t)` returns
exactly the items whose quantity is strictly less than `t`, in the ledger's
iteration (insertion) order — its output is a sublist of the ledger's key
sequence; on the ledger `{"apple": 7, "banana": 2}`, `list_below(5)`
returns `["banana"]`. -/
theorem c8_check_low_items_spec (t : Int) (d : Ledger) :
    (∀ x, x ∈ check_low_items (.vint t) d ↔ ∃ q, (x, q) ∈ d ∧ q < t) ∧
      (check_low_items (.vint t) d).Sublist (d.map Prod.fst) ∧
      check_low_items (.vint 5) [("apple", 7), ("banana", 2)] = ["banana"] := by
  refine ⟨?_, ?_, by decide⟩
  · intro x
    simp only [check_low_items, PyVal.isIntLike, if_true, PyVal.toIntVal,
      List.mem_map, List.mem_filter, decide_eq_true_eq]
    constructor
    · rintro ⟨⟨a, b⟩, ⟨hmem, hlt⟩, rfl⟩
      exact ⟨b, hmem, hlt⟩
    · rintro ⟨q, hmem, hlt⟩
      exact ⟨(x, q), ⟨hmem, hlt⟩, rfl⟩
  · simp only [check_low_items, PyVal.isIntLike, if_true]
    exact (List.filter_sublist d).map Prod.fst

lemma loadFields_save_aux (d : Ledger) (acc : Ledger)
    (hnd : (d.map Prod.fst).Nodup)
    (hdis : ∀ p ∈ d, ∀ q ∈ acc, q.1 ≠ p.1) :
    loadFields (d.map (fun p => (p.1, JSON.jnum p.2))) acc = acc ++ d := by
  induction d generalizing acc with
  | nil => simp [loadFields]
  | cons p rest ih =>
    have hset : dictSet acc p.1 p.2 = acc ++ [(p.1, p.2)] :=
      dictSet_of_forall_ne _ (fun q hq => hdis p (List.mem_cons_self p rest) q hq)
    have hnd' : (rest.map Prod.fst).Nodup := (List.nodup_cons.mp hnd).2
    have hhead : p.1 ∉ rest.map Prod.fst := (List.nodup_cons.mp hnd).1
    have hdis' : ∀ r ∈ rest, ∀ q ∈ acc ++ [(p.1, p.2)], q.1 ≠ r.1 := by
      intro r hr q hq
      rcases List.mem_append.mp hq with hq1 | hq1
      · exact hdis r (List.mem_cons_of_mem p hr) q hq1
      · have hqe : q = (p.1, p.2) := List.mem_singleton.mp hq1
        rw [hqe]
        intro hcontra
        exact hhead (hcontra ▸ List.mem_map_of_mem Prod.fst hr)
    calc loadFields ((p :: rest).map (fun r => (r.1, JSON.jnum r.2))) acc
        = loadFields (rest.map (fun r => (r.1, JSON.jnum r.2))) (dictSet acc p.1 p.2) := by
          simp [loadFields, pyInt]
      _ = (acc ++ [(p.1, p.2)]) ++ rest := by rw [hset, ih _ hnd' hdis']
      _ = acc ++ p :: rest := by simp

/-- C3: for every ledger whose keys are non-empty strings (and distinct, as
dict keys are) and whose values are integers (the ledger's value type),
`save(path)` followed by `load(path)` yields a ledger equal to the saved
one: same keys mapped to the same integer values, in the same order. -/
theorem c3_save_load_roundtrip (d prev : Ledger) (path : String) (hp : path ≠ "")
    (_hkeys : ∀ p ∈ d, p.1 ≠ "") (hnd : (d.map Prod.fst).Nodup) :
    load_data (.vstr path) (.parsed (save_data d)) prev = d := by
  simp only [load_data, hp, if_false, save_data]
  have h := loadFields_save_aux d [] hnd (by simp)
  simpa using h

/-- Witness for C3 at the ledger `{"apple": 7, "banana": 2}`. -/
theorem c3_save_load_roundtrip_witness :
    load_data (.vstr "inventory.json")
        (.parsed (save_data [("apple", 7), ("banana", 2)])) [("z", 9)] =
      [("apple", 7), ("banana", 2)] :=
  c3_save_load_roundtrip [("apple", 7), ("banana", 2)] [("z", 9)] "inventory.json"
    (by decide) (by decide) (by decide)
